import Mathlib

/-!
Verification of the asynchronous request-orchestration core of the
HERE Data SDK read client (`CatalogClientImpl.cpp`).

The embedding models the orchestration state of one client instance as a
`World`: the monotonic placeholder-key counter of the pending-requests
registry, the list of tasks submitted to the external scheduler (a task's
id is its position in that list), the live registry entries, and the list
of results delivered to caller-supplied callbacks so far.

Each public operation of `CatalogClientImpl` is translated as a pure
function `World → Request → CancellationToken × World` mirroring the body
of the corresponding C++ member function: generation of placeholder keys,
creation of one or two tasks, registry inserts, and the token handed back
to the caller.  The dynamics (task executions on worker threads and
cancellations, in any interleaving) are a list of `OrchAction`s folded
over the world by `World.run`.

The wrapping completion callbacks that the C++ code builds as closures
are encoded by `WrapCallback`, one constructor per closure shape found in
the source:
  * `direct d` — the `GetCatalog` style: the result is delivered inside
    `TaskContext::Execute` (if the callback is non-null, i.e. `d = true`),
    and the scheduled block removes the registry entry afterwards;
  * `guarded`  — the `GetPartitions` / `GetData` /
    `GetCatalogMetadataVersion` style: `if (Remove(request_key))
    callback(response);`
  * `removeOnly` — the background refresh style: `Remove(onlineKey)` and
    the response is discarded;
  * `unguarded` — the `PrefetchTiles` style: `Remove(request_key);
    callback(response);` with no guard.
-/

/-- The `FetchOptions` enumeration of the SDK. -/
inductive FetchOptions
  | CacheOnly
  | OnlineOnly
  | OnlineIfNotFound
  | CacheWithUpdate
  deriving DecidableEq, Repr

/-- A catalog request carries its fetch option (the only request state the
orchestration core inspects). -/
structure CatalogRequest where
  fetch_option : FetchOptions
  deriving DecidableEq, Repr

def CatalogRequest.GetFetchOption (r : CatalogRequest) : FetchOptions :=
  r.fetch_option

def CatalogRequest.WithFetchOption (r : CatalogRequest) (o : FetchOptions) :
    CatalogRequest :=
  { r with fetch_option := o }

/-- Catalog version request (fetch option only, as above). -/
structure CatalogVersionRequest where
  fetch_option : FetchOptions
  deriving DecidableEq, Repr

def CatalogVersionRequest.GetFetchOption (r : CatalogVersionRequest) :
    FetchOptions := r.fetch_option

def CatalogVersionRequest.WithFetchOption (r : CatalogVersionRequest)
    (o : FetchOptions) : CatalogVersionRequest :=
  { r with fetch_option := o }

/-- Partitions request (fetch option only, as above). -/
structure PartitionsRequest where
  fetch_option : FetchOptions
  deriving DecidableEq, Repr

def PartitionsRequest.GetFetchOption (r : PartitionsRequest) : FetchOptions :=
  r.fetch_option

def PartitionsRequest.WithFetchOption (r : PartitionsRequest)
    (o : FetchOptions) : PartitionsRequest :=
  { r with fetch_option := o }

/-- Data request (fetch option only, as above). -/
structure DataRequest where
  fetch_option : FetchOptions
  deriving DecidableEq, Repr

def DataRequest.GetFetchOption (r : DataRequest) : FetchOptions :=
  r.fetch_option

def DataRequest.WithFetchOption (r : DataRequest) (o : FetchOptions) :
    DataRequest :=
  { r with fetch_option := o }

/-- Prefetch request: a set of root tile keys (the orchestration core never
inspects it; expansion happens inside the prefetch provider). -/
structure PrefetchTilesRequest where
  tile_keys : List Nat
  deriving DecidableEq, Repr

/-- The result a task hands to its completion callback: the repository
payload on a normal completion, or a cancellation-kind result when the
task's cancellation context was cancelled before it executed. -/
inductive TaskResult
  | payload
  | cancelled
  deriving DecidableEq, Repr

/-- Encoding of the wrapping completion-callback closures built in
`CatalogClientImpl.cpp` (see the module docstring). -/
inductive WrapCallback
  | direct (deliver : Bool)
  | guarded
  | removeOnly
  | unguarded
  deriving DecidableEq, Repr

/-- Whether a wrapping callback can ever make a caller-visible delivery. -/
def WrapCallback.canDeliver : WrapCallback → Bool
  | .direct d => d
  | .guarded => true
  | .removeOnly => false
  | .unguarded => true

/-- One task submitted to the external scheduler: the fetch option its
repository call was issued with (`none` for the prefetch aggregate, which
has no fetch option), the registry key its completion callback operates
on, the shape of that callback, and the task's cancellation-context flag
and executed flag. -/
structure TaskCtx where
  option : Option FetchOptions
  key : Nat
  callback : WrapCallback
  cancelled : Bool
  executed : Bool
  deriving DecidableEq, Repr

/-- A cancellation token: cancelling it sets the cancellation flag of the
listed tasks.  The combined token built by `GetCatalog` for
`CacheWithUpdate` (a closure cancelling the two sub-tokens) is flattened
into the union of the two id lists. -/
structure CancellationToken where
  cancels : List Nat
  deriving DecidableEq, Repr

/-- Orchestration state of one client instance. -/
structure World where
  nextKey : Nat
  tasks : List TaskCtx
  registry : List (Nat × CancellationToken)
  delivered : List (Nat × TaskResult)
  deriving DecidableEq, Repr

/-- A freshly constructed client: empty registry, no tasks, nothing
delivered. -/
def World.empty : World :=
  { nextKey := 0, tasks := [], registry := [], delivered := [] }

/-- `PendingRequests::GenerateRequestPlaceholder`: returns the next value
of the registry-scoped monotonic counter. -/
def World.GenerateRequestPlaceholder (w : World) : Nat × World :=
  (w.nextKey, { w with nextKey := w.nextKey + 1 })

/-- `PendingRequests::Insert(token, key)`: adds a registry entry. -/
def World.Insert (w : World) (token : CancellationToken) (key : Nat) :
    World :=
  { w with registry := (key, token) :: w.registry }

/-- `PendingRequests::Remove(key)`: removes the entry and reports whether
the key was still present. -/
def World.Remove (w : World) (key : Nat) : Bool × World :=
  (w.registry.any (fun e => e.1 == key),
   { w with registry := w.registry.filter (fun e => !(e.1 == key)) })

/-- The result a task computes at execution time: a cancellation-kind
result if its cancellation context was cancelled, the repository payload
otherwise (spec §4.2). -/
def TaskCtx.result (t : TaskCtx) : TaskResult :=
  if t.cancelled then TaskResult.cancelled else TaskResult.payload

/-- Runs the wrapping completion callback of task `tid` (shape `t.callback`,
operating on registry key `t.key`), mirroring the closures in
`CatalogClientImpl.cpp`. -/
def World.runCallback (w : World) (tid : Nat) (t : TaskCtx) : World :=
  match t.callback with
  | WrapCallback.direct deliver =>
      let w1 := if deliver then
        { w with delivered := w.delivered ++ [(tid, t.result)] } else w
      (w1.Remove t.key).2
  | WrapCallback.guarded =>
      let r := w.Remove t.key
      if r.1 then
        { r.2 with delivered := r.2.delivered ++ [(tid, t.result)] }
      else r.2
  | WrapCallback.removeOnly => (w.Remove t.key).2
  | WrapCallback.unguarded =>
      let w1 := (w.Remove t.key).2
      { w1 with delivered := w1.delivered ++ [(tid, t.result)] }

/-- A worker thread runs task `tid`: a no-op if the id is unknown or the
task already executed (`TaskContext`'s state transition guarantees the
operation body runs at most once); otherwise the task is marked executed
and its completion callback runs with the computed result. -/
def World.executeTask (w : World) (tid : Nat) : World :=
  match w.tasks[tid]? with
  | none => w
  | some t =>
      if t.executed then w
      else
        World.runCallback
          { w with tasks := w.tasks.set tid { t with executed := true } }
          tid t

/-- `CancellationContext::CancelOperation` for one task: sets its
cancellation flag (idempotent; never delivers anything). -/
def World.cancelOne (w : World) (tid : Nat) : World :=
  match w.tasks[tid]? with
  | none => w
  | some t =>
      { w with tasks := w.tasks.set tid { t with cancelled := true } }

/-- `CancellationToken::Cancel`: cancels every task the token refers to. -/
def World.cancelTasks (w : World) (tids : List Nat) : World :=
  tids.foldl World.cancelOne w

/-- An interleaving event: some worker thread executes a task, or some
thread cancels a token. -/
inductive OrchAction
  | execute (tid : Nat)
  | cancel (token : CancellationToken)
  deriving DecidableEq, Repr

def World.step (w : World) : OrchAction → World
  | OrchAction.execute tid => w.executeTask tid
  | OrchAction.cancel token => w.cancelTasks token.cancels

/-- Runs an arbitrary interleaving of executions and cancellations. -/
def World.run (w : World) (actions : List OrchAction) : World :=
  actions.foldl World.step w

/-- Modelled from the spec: a repository collaborator call
(`CatalogRepository::getLatestCatalogVersion`,
`PartitionsRepository::GetPartitions`, `DataRepository::GetData` — their
sources are not part of this embedding).  Per spec §4.2/§6 the repository
creates one cancellable task for the fetch with the given option, hands
it to the scheduler, and returns the task's cancellation token; the
supplied completion callback runs when the task executes. -/
def repositoryCall (w : World) (opt : FetchOptions) (key : Nat)
    (cb : WrapCallback) : CancellationToken × World :=
  let tid := w.tasks.length
  (⟨[tid]⟩,
   { w with tasks := w.tasks ++ [⟨some opt, key, cb, false, false⟩] })

/-- Modelled from the spec: `PrefetchTilesProvider::PrefetchTiles` (source
not part of this embedding).  Per spec §4.5 the provider submits one
aggregate cancellable task (itself fanning out sub-fetches) and returns
its token; the supplied completion callback receives the aggregated
response exactly once. -/
def PrefetchTilesProvider.PrefetchTiles (w : World) (key : Nat)
    (cb : WrapCallback) : CancellationToken × World :=
  let tid := w.tasks.length
  (⟨[tid]⟩,
   { w with tasks := w.tasks ++ [⟨none, key, cb, false, false⟩] })

/-- Mirrors the `add_task` lambda of `CatalogClientImpl::GetCatalog`:
creates a `TaskContext` for the repository call (`has_callback = false`
models the `nullptr` callback of the background task), inserts it into
the pending-requests registry (a keyless `Insert(context)` stores it
under a generated placeholder key, spec §4.3), submits its execution via
`ExecuteOrSchedule` (= appends it to the scheduler-visible task list),
and returns `context.CancelToken()`. -/
def CatalogClientImpl.add_task (w : World) (opt : FetchOptions)
    (has_callback : Bool) : CancellationToken × World :=
  let g := w.GenerateRequestPlaceholder
  let tid := g.2.tasks.length
  let w2 : World := { g.2 with tasks := g.2.tasks ++
                [⟨some opt, g.1, WrapCallback.direct has_callback, false,
                  false⟩] }
  (CancellationToken.mk [tid], w2.Insert (CancellationToken.mk [tid]) g.1)

/-- Mirrors `CatalogClientImpl::GetCatalog(request, callback)`: for
`CacheWithUpdate` it adds a `CacheOnly` task carrying the caller's
callback and an `OnlineOnly` task with a `nullptr` callback, and returns
a combined token cancelling both; otherwise one task with the request's
own option. -/
def CatalogClientImpl.GetCatalog (w : World) (request : CatalogRequest) :
    CancellationToken × World :=
  if request.GetFetchOption = FetchOptions.CacheWithUpdate then
    let cache := CatalogClientImpl.add_task w
      ((request.WithFetchOption FetchOptions.CacheOnly).GetFetchOption) true
    let online := CatalogClientImpl.add_task cache.2
      ((request.WithFetchOption FetchOptions.OnlineOnly).GetFetchOption) false
    (⟨cache.1.cancels ++ online.1.cancels⟩, online.2)
  else
    CatalogClientImpl.add_task w request.GetFetchOption true

/-- Mirrors `CatalogClientImpl::GetCatalogMetadataVersion(request,
callback)`: generates `request_key`; the wrapping `request_callback`
delivers only if `Remove(request_key)` returns true (`WrapCallback.guarded`);
for `CacheWithUpdate` a second, `OnlineIfNotFound` repository call is
registered under a second placeholder key with a discard callback
(`WrapCallback.removeOnly`); the token of the first repository call is
inserted under `request_key` and returned. -/
def CatalogClientImpl.GetCatalogMetadataVersion (w : World)
    (request : CatalogVersionRequest) : CancellationToken × World :=
  let g := w.GenerateRequestPlaceholder
  let request_key := g.1
  if request.GetFetchOption = FetchOptions.CacheWithUpdate then
    let cache := repositoryCall g.2
      ((request.WithFetchOption FetchOptions.CacheOnly).GetFetchOption)
      request_key WrapCallback.guarded
    let g2 := cache.2.GenerateRequestPlaceholder
    let onlineKey := g2.1
    let online := repositoryCall g2.2
      ((request.WithFetchOption FetchOptions.OnlineIfNotFound).GetFetchOption)
      onlineKey WrapCallback.removeOnly
    let w4 := online.2.Insert online.1 onlineKey
    (cache.1, w4.Insert cache.1 request_key)
  else
    let single := repositoryCall g.2 request.GetFetchOption request_key
      WrapCallback.guarded
    (single.1, single.2.Insert single.1 request_key)

/-- Mirrors `CatalogClientImpl::GetPartitions(request, callback)` (same
shape as `GetCatalogMetadataVersion`). -/
def CatalogClientImpl.GetPartitions (w : World)
    (request : PartitionsRequest) : CancellationToken × World :=
  let g := w.GenerateRequestPlaceholder
  let request_key := g.1
  if request.GetFetchOption = FetchOptions.CacheWithUpdate then
    let cache := repositoryCall g.2
      ((request.WithFetchOption FetchOptions.CacheOnly).GetFetchOption)
      request_key WrapCallback.guarded
    let g2 := cache.2.GenerateRequestPlaceholder
    let onlineKey := g2.1
    let online := repositoryCall g2.2
      ((request.WithFetchOption FetchOptions.OnlineIfNotFound).GetFetchOption)
      onlineKey WrapCallback.removeOnly
    let w4 := online.2.Insert online.1 onlineKey
    (cache.1, w4.Insert cache.1 request_key)
  else
    let single := repositoryCall g.2 request.GetFetchOption request_key
      WrapCallback.guarded
    (single.1, single.2.Insert single.1 request_key)

/-- Mirrors `CatalogClientImpl::GetData(request, callback)` (same shape as
`GetPartitions`). -/
def CatalogClientImpl.GetData (w : World) (request : DataRequest) :
    CancellationToken × World :=
  let g := w.GenerateRequestPlaceholder
  let request_key := g.1
  if request.GetFetchOption = FetchOptions.CacheWithUpdate then
    let cache := repositoryCall g.2
      ((request.WithFetchOption FetchOptions.CacheOnly).GetFetchOption)
      request_key WrapCallback.guarded
    let g2 := cache.2.GenerateRequestPlaceholder
    let onlineKey := g2.1
    let online := repositoryCall g2.2
      ((request.WithFetchOption FetchOptions.OnlineIfNotFound).GetFetchOption)
      onlineKey WrapCallback.removeOnly
    let w4 := online.2.Insert online.1 onlineKey
    (cache.1, w4.Insert cache.1 request_key)
  else
    let single := repositoryCall g.2 request.GetFetchOption request_key
      WrapCallback.guarded
    (single.1, single.2.Insert single.1 request_key)

/-- Mirrors `CatalogClientImpl::PrefetchTiles(request, callback)`: one
generated `request_key`; the wrapping `request_callback` calls
`Remove(request_key)` and then forwards the response unconditionally
(`WrapCallback.unguarded`); the provider token is inserted under
`request_key` and returned. -/
def CatalogClientImpl.PrefetchTiles (w : World)
    (_request : PrefetchTilesRequest) : CancellationToken × World :=
  let g := w.GenerateRequestPlaceholder
  let t := PrefetchTilesProvider.PrefetchTiles g.2 g.1
    WrapCallback.unguarded
  (t.1, t.2.Insert t.1 g.1)

/-- Executes every task submitted to the scheduler that has not yet run
(the scheduler eventually runs all submitted work; already-executed ids
are no-ops). -/
def World.drain (w : World) : World :=
  (List.range w.tasks.length).foldl World.executeTask w

/-- Modelled from the spec: `PendingRequests::CancelAllAndWait` (the
`PendingRequests` sources are not part of this embedding).  Per spec
§4.3/§5 it invokes `Cancel()` on every currently-registered entry and
then blocks until every in-flight completion callback has fired, i.e.
until the scheduler has run all outstanding work. -/
def World.CancelAllAndWait (w : World) : World :=
  (w.cancelTasks (w.registry.map (fun e => e.2.cancels)).flatten).drain

/-- Mirrors `CatalogClientImpl::CancelPendingRequests`, which forwards to
the registry; the registry-side teardown (modelled from the spec, §5) is
`CancelAllAndWait`.  The destructor `~CatalogClientImpl` calls exactly
this. -/
def CatalogClientImpl.CancelPendingRequests (w : World) : World :=
  w.CancelAllAndWait

/-- Modelled from the spec (§4.2): the internal state of a `TaskContext`
(`CREATED → COMPLETED` or `→ CANCELLED`; the transient `EXECUTING` state
is not observable in the sequential interleaving model). -/
inductive TCState
  | created
  | completed
  | cancelledState
  deriving DecidableEq, Repr

/-- Modelled from the spec (§4.2): a `TaskContext` couples a cancellable
operation and a result callback with an internal state and an owned
`CancellationContext`; `callbackCount` counts the invocations of the
result callback. -/
structure TaskContext where
  state : TCState
  ctxCancelled : Bool
  callbackCount : Nat
  deriving DecidableEq, Repr

/-- `TaskContext::Create`: fresh context in `CREATED` state. -/
def TaskContext.Create : TaskContext :=
  { state := TCState.created, ctxCancelled := false, callbackCount := 0 }

/-- An event on one `TaskContext`: the scheduler invokes `Execute()`, or
some thread cancels the token from `CancelToken()`. -/
inductive TCAction
  | execute
  | cancel
  deriving DecidableEq, Repr

/-- Modelled from the spec (§4.2): `Cancel()` sets the shared cancellation
flag; `Execute()` runs only from the `CREATED` state (the shared state
transition makes the completion paths mutually exclusive), moves to
`CANCELLED` if cancellation raced in and to `COMPLETED` otherwise, and
invokes the result callback exactly there; a second `Execute()` finds the
state no longer `CREATED` and does nothing. -/
def TaskContext.tcStep (tc : TaskContext) : TCAction → TaskContext
  | TCAction.cancel => { tc with ctxCancelled := true }
  | TCAction.execute =>
      match tc.state with
      | TCState.created =>
          { tc with
            state := if tc.ctxCancelled then TCState.cancelledState
                     else TCState.completed,
            callbackCount := tc.callbackCount + 1 }
      | _ => tc

/-- Folds an arbitrary ordering of `Execute()`/`Cancel()` calls over a
`TaskContext`. -/
def TaskContext.runTC (tc : TaskContext) (as : List TCAction) :
    TaskContext :=
  as.foldl TaskContext.tcStep tc

/-- Modelled from the spec (§6): `CancellableFuture` — the blocking handle
returned by the future-style overloads; `value` is what
`GetFuture().get()` yields once the wrapped callback has fired. -/
structure CancellableFuture (α : Type) where
  value : Option α
  deriving DecidableEq, Repr

/-- A promise is fulfilled by the first callback invocation; later
invocations cannot overwrite it. -/
def Promise.fulfill {α : Type} (p : Option α) (x : α) : Option α :=
  match p with
  | none => some x
  | some v => some v

/-- Issues a request through a callback-style operation on a fresh client
and lets the scheduler run all submitted work to completion. -/
def settle {ρ : Type}
    (issue : World → ρ → CancellationToken × World) (req : ρ) : World :=
  (issue World.empty req).2.drain

/-- The results the callback-style form delivers to the caller-supplied
callback for a request, in delivery order. -/
def callbackResults {ρ : Type}
    (issue : World → ρ → CancellationToken × World) (req : ρ) :
    List TaskResult :=
  ((settle issue req).delivered).map (fun p => p.2)

/-- Modelled from the spec (§6): `AsFuture` builds the future-style form
by adapting the callback form — it issues the request through the
callback-style operation with a callback that fulfills the promise, and
the returned handle yields the promise's value. -/
def AsFuture {ρ : Type}
    (issue : World → ρ → CancellationToken × World) (req : ρ) :
    CancellableFuture TaskResult :=
  { value := (callbackResults issue req).foldl Promise.fulfill none }

/-! Projections of the task list used by the invariance lemmas. -/

/-- The wrapping-callback shape of task `i` (stable across the run). -/
def World.callbackAt (w : World) (i : Nat) : Option WrapCallback :=
  (w.tasks.map TaskCtx.callback)[i]?

/-- Whether task `i` exists and its callback can reach the caller. -/
def World.canDeliverAt (w : World) (i : Nat) : Bool :=
  ((w.callbackAt i).map WrapCallback.canDeliver).getD false

/-- The cancellation flag of task `i`. -/
def World.cancelledAt (w : World) (i : Nat) : Option Bool :=
  (w.tasks.map TaskCtx.cancelled)[i]?

/-- The executed flag of task `i`. -/
def World.executedAt (w : World) (i : Nat) : Option Bool :=
  (w.tasks.map TaskCtx.executed)[i]?

/-- Every task of `w` has already executed (all submitted work has run). -/
def World.allExecuted (w : World) : Prop :=
  ∀ i, i < w.tasks.length → w.executedAt i = some true

lemma map_set_of_eq {α β : Type} (f : α → β) :
    ∀ (l : List α) (i : Nat) (a : α),
      (∀ b, l[i]? = some b → f b = f a) →
      (l.set i a).map f = l.map f
  | [], _, _, _ => rfl
  | x :: xs, 0, a, h => by
      simp only [List.set, List.map]
      rw [h x (by simp)]
  | x :: xs, i + 1, a, h => by
      simp only [List.set, List.map, List.cons.injEq, true_and]
      exact map_set_of_eq f xs i a (fun b hb => h b (by simpa using hb))

lemma runCallback_tasks (w : World) (tid : Nat) (t : TaskCtx) :
    (w.runCallback tid t).tasks = w.tasks := by
  unfold World.runCallback
  cases t.callback <;> simp [World.Remove] <;> split <;> rfl

lemma executeTask_callback_map (w : World) (tid : Nat) :
    (w.executeTask tid).tasks.map TaskCtx.callback =
      w.tasks.map TaskCtx.callback := by
  unfold World.executeTask
  cases h : w.tasks[tid]? with
  | none => rfl
  | some t =>
      by_cases he : t.executed
      · simp [he]
      · dsimp only
        rw [if_neg he, runCallback_tasks]
        exact map_set_of_eq _ _ _ _ (by intro b hb; rw [hb] at h; cases h; rfl)

lemma executeTask_cancelled_map (w : World) (tid : Nat) :
    (w.executeTask tid).tasks.map TaskCtx.cancelled =
      w.tasks.map TaskCtx.cancelled := by
  unfold World.executeTask
  cases h : w.tasks[tid]? with
  | none => rfl
  | some t =>
      by_cases he : t.executed
      · simp [he]
      · dsimp only
        rw [if_neg he, runCallback_tasks]
        exact map_set_of_eq _ _ _ _ (by intro b hb; rw [hb] at h; cases h; rfl)

lemma cancelOne_callback_map (w : World) (tid : Nat) :
    (w.cancelOne tid).tasks.map TaskCtx.callback =
      w.tasks.map TaskCtx.callback := by
  unfold World.cancelOne
  cases h : w.tasks[tid]? with
  | none => rfl
  | some t =>
      exact map_set_of_eq _ _ _ _ (by intro b hb; rw [hb] at h; cases h; rfl)

lemma cancelOne_executed_map (w : World) (tid : Nat) :
    (w.cancelOne tid).tasks.map TaskCtx.executed =
      w.tasks.map TaskCtx.executed := by
  unfold World.cancelOne
  cases h : w.tasks[tid]? with
  | none => rfl
  | some t =>
      exact map_set_of_eq _ _ _ _ (by intro b hb; rw [hb] at h; cases h; rfl)

lemma cancelOne_delivered (w : World) (tid : Nat) :
    (w.cancelOne tid).delivered = w.delivered := by
  unfold World.cancelOne
  cases w.tasks[tid]? <;> rfl

lemma cancelTasks_callback_map (tids : List Nat) : ∀ (w : World),
    (w.cancelTasks tids).tasks.map TaskCtx.callback =
      w.tasks.map TaskCtx.callback := by
  induction tids with
  | nil => intro w; rfl
  | cons j rest ih =>
      intro w
      show ((w.cancelOne j).cancelTasks rest).tasks.map TaskCtx.callback = _
      rw [ih, cancelOne_callback_map]

lemma cancelTasks_executed_map (tids : List Nat) : ∀ (w : World),
    (w.cancelTasks tids).tasks.map TaskCtx.executed =
      w.tasks.map TaskCtx.executed := by
  induction tids with
  | nil => intro w; rfl
  | cons j rest ih =>
      intro w
      show ((w.cancelOne j).cancelTasks rest).tasks.map TaskCtx.executed = _
      rw [ih, cancelOne_executed_map]

lemma cancelTasks_delivered (tids : List Nat) : ∀ (w : World),
    (w.cancelTasks tids).delivered = w.delivered := by
  induction tids with
  | nil => intro w; rfl
  | cons j rest ih =>
      intro w
      show ((w.cancelOne j).cancelTasks rest).delivered = _
      rw [ih, cancelOne_delivered]

lemma step_callbackAt (w : World) (a : OrchAction) (i : Nat) :
    (w.step a).callbackAt i = w.callbackAt i := by
  cases a with
  | execute tid =>
      unfold World.callbackAt
      rw [show (w.step (OrchAction.execute tid)).tasks = (w.executeTask tid).tasks from rfl]
      rw [executeTask_callback_map]
  | cancel tok =>
      unfold World.callbackAt
      rw [show (w.step (OrchAction.cancel tok)).tasks = (w.cancelTasks tok.cancels).tasks from rfl]
      rw [cancelTasks_callback_map]

lemma step_canDeliverAt (w : World) (a : OrchAction) (i : Nat) :
    (w.step a).canDeliverAt i = w.canDeliverAt i := by
  unfold World.canDeliverAt
  rw [step_callbackAt]

lemma runCallback_delivered_mem (w : World) (tid : Nat) (t : TaskCtx) :
    ∀ p ∈ (w.runCallback tid t).delivered,
      p ∈ w.delivered ∨ (p = (tid, t.result) ∧ t.callback.canDeliver = true) := by
  intro p hp
  unfold World.runCallback at hp
  cases hc : t.callback with
  | direct d =>
      rw [hc] at hp
      cases d with
      | true =>
          simp only [World.Remove, if_true] at hp
          simp only [List.mem_append, List.mem_singleton] at hp
          rcases hp with hp | hp
          · exact Or.inl hp
          · exact Or.inr ⟨hp, by simp [hc, WrapCallback.canDeliver]⟩
      | false =>
          simp only [World.Remove, if_false] at hp
          exact Or.inl hp
  | guarded =>
      rw [hc] at hp
      simp only [World.Remove] at hp
      by_cases hg : w.registry.any (fun e => e.1 == t.key) = true
      · rw [if_pos hg] at hp
        simp only [List.mem_append, List.mem_singleton] at hp
        rcases hp with hp | hp
        · exact Or.inl hp
        · exact Or.inr ⟨hp, by simp [hc, WrapCallback.canDeliver]⟩
      · rw [if_neg hg] at hp
        exact Or.inl hp
  | removeOnly =>
      rw [hc] at hp
      exact Or.inl hp
  | unguarded =>
      rw [hc] at hp
      simp only [World.Remove, List.mem_append, List.mem_singleton] at hp
      rcases hp with hp | hp
      · exact Or.inl hp
      · exact Or.inr ⟨hp, by simp [hc, WrapCallback.canDeliver]⟩

lemma executeTask_delivered_mem (w : World) (tid : Nat) :
    ∀ p ∈ (w.executeTask tid).delivered,
      p ∈ w.delivered ∨ (w.canDeliverAt tid = true ∧ p.1 = tid) := by
  intro p hp
  unfold World.executeTask at hp
  cases h : w.tasks[tid]? with
  | none => rw [h] at hp; exact Or.inl hp
  | some t =>
      rw [h] at hp
      dsimp only at hp
      by_cases he : t.executed
      · rw [if_pos he] at hp; exact Or.inl hp
      · rw [if_neg he] at hp
        rcases runCallback_delivered_mem _ _ _ p hp with hm | ⟨hpe, hcd⟩
        · exact Or.inl hm
        · refine Or.inr ⟨?_, by rw [hpe]⟩
          unfold World.canDeliverAt World.callbackAt
          rw [List.getElem?_map, h]
          simpa using hcd

lemma step_delivered_mem (w : World) (a : OrchAction) :
    ∀ p ∈ (w.step a).delivered,
      p ∈ w.delivered ∨ w.canDeliverAt p.1 = true := by
  intro p hp
  cases a with
  | execute tid =>
      rcases executeTask_delivered_mem w tid p hp with hm | ⟨hcd, hpe⟩
      · exact Or.inl hm
      · exact Or.inr (by rw [hpe]; exact hcd)
  | cancel tok =>
      rw [show (w.step (OrchAction.cancel tok)).delivered =
            (w.cancelTasks tok.cancels).delivered from rfl,
          cancelTasks_delivered] at hp
      exact Or.inl hp

lemma run_delivered_sources (S : Nat → Prop) :
    ∀ (as : List OrchAction) (w : World),
      (∀ p ∈ w.delivered, S p.1) →
      (∀ tid, w.canDeliverAt tid = true → S tid) →
      ∀ p ∈ (w.run as).delivered, S p.1 := by
  intro as
  induction as with
  | nil => intro w hD _ p hp; exact hD p hp
  | cons a rest ih =>
      intro w hD hC p hp
      refine ih (w.step a) ?_ ?_ p hp
      · intro q hq
        rcases step_delivered_mem w a q hq with hm | hcd
        · exact hD q hm
        · exact hC q.1 hcd
      · intro tid htid
        exact hC tid (by rw [← step_canDeliverAt w a tid]; exact htid)

lemma canDeliverAt_lt (w : World) (tid : Nat)
    (h : w.canDeliverAt tid = true) : tid < w.tasks.length := by
  by_contra hge
  push_neg at hge
  unfold World.canDeliverAt World.callbackAt at h
  rw [List.getElem?_eq_none (by simpa using hge)] at h
  simp at h

lemma set_getElem?_self {α : Type} :
    ∀ (l : List α) (i : Nat) (a : α), i < l.length →
      (l.set i a)[i]? = some a
  | [], i, _, h => by simp at h
  | x :: xs, 0, a, _ => by simp
  | x :: xs, i + 1, a, h => by
      simp only [List.set, List.getElem?_cons_succ]
      exact set_getElem?_self xs i a (by simpa using h)

lemma set_getElem?_ne {α : Type} :
    ∀ (l : List α) (i j : Nat) (a : α), i ≠ j →
      (l.set i a)[j]? = l[j]?
  | [], _, _, _, _ => by simp
  | x :: xs, 0, 0, a, h => absurd rfl h
  | x :: xs, 0, j + 1, a, _ => by
      simp only [List.set, List.getElem?_cons_succ]
  | x :: xs, i + 1, 0, a, _ => by
      simp only [List.set, List.getElem?_cons_zero]
  | x :: xs, i + 1, j + 1, a, h => by
      simp only [List.set, List.getElem?_cons_succ]
      exact set_getElem?_ne xs i j a (fun hc => h (by rw [hc]))

lemma executedAt_eq (w : World) (i : Nat) :
    w.executedAt i = (w.tasks[i]?).map TaskCtx.executed := by
  unfold World.executedAt
  rw [List.getElem?_map]

lemma cancelledAt_eq (w : World) (i : Nat) :
    w.cancelledAt i = (w.tasks[i]?).map TaskCtx.cancelled := by
  unfold World.cancelledAt
  rw [List.getElem?_map]

lemma executeTask_tasks_length (w : World) (tid : Nat) :
    (w.executeTask tid).tasks.length = w.tasks.length := by
  have h := executeTask_callback_map w tid
  have := congrArg List.length h
  simpa using this

lemma cancelTasks_tasks_length (w : World) (tids : List Nat) :
    (w.cancelTasks tids).tasks.length = w.tasks.length := by
  have h := cancelTasks_callback_map tids w
  have := congrArg List.length h
  simpa using this

lemma executedAt_executeTask_self (w : World) (tid : Nat)
    (h : tid < w.tasks.length) :
    (w.executeTask tid).executedAt tid = some true := by
  have hsome : w.tasks[tid]? = some w.tasks[tid] := List.getElem?_eq_getElem h
  unfold World.executeTask
  rw [hsome]
  dsimp only
  by_cases he : (w.tasks[tid]).executed
  · rw [if_pos he, executedAt_eq, hsome]
    simp [he]
  · rw [if_neg he, executedAt_eq, runCallback_tasks]
    dsimp only
    rw [set_getElem?_self _ _ _ h]
    rfl

lemma executedAt_mono_executeTask (w : World) (i j : Nat)
    (h : w.executedAt i = some true) :
    (w.executeTask j).executedAt i = some true := by
  by_cases hij : i = j
  · subst hij
    have hlt : i < w.tasks.length := by
      by_contra hge
      push_neg at hge
      rw [executedAt_eq, List.getElem?_eq_none (by simpa using hge)] at h
      simp at h
    exact executedAt_executeTask_self w i hlt
  · unfold World.executeTask
    cases hsome : w.tasks[j]? with
    | none => exact h
    | some t =>
        dsimp only
        by_cases he : t.executed
        · rw [if_pos he]; exact h
        · rw [if_neg he, executedAt_eq, runCallback_tasks]
          dsimp only
          rw [set_getElem?_ne _ _ _ _ (fun hc => hij hc.symm)]
          rw [executedAt_eq] at h
          exact h

lemma executedAt_mono_foldl (l : List Nat) : ∀ (w : World) (i : Nat),
    w.executedAt i = some true →
    (l.foldl World.executeTask w).executedAt i = some true := by
  induction l with
  | nil => intro w i h; exact h
  | cons j rest ih =>
      intro w i h
      exact ih (w.executeTask j) i (executedAt_mono_executeTask w i j h)

lemma foldl_executeTask_executes (l : List Nat) : ∀ (w : World) (i : Nat),
    i ∈ l → i < w.tasks.length →
    (l.foldl World.executeTask w).executedAt i = some true := by
  induction l with
  | nil => intro w i h; simp at h
  | cons j rest ih =>
      intro w i hmem hlt
      rcases List.mem_cons.mp hmem with hij | hrest
      · subst hij
        exact executedAt_mono_foldl rest (w.executeTask i) i
          (executedAt_executeTask_self w i hlt)
      · exact ih (w.executeTask j) i hrest
          (by rw [executeTask_tasks_length]; exact hlt)

lemma foldl_executeTask_length (l : List Nat) : ∀ (w : World),
    (l.foldl World.executeTask w).tasks.length = w.tasks.length := by
  induction l with
  | nil => intro w; rfl
  | cons j rest ih =>
      intro w
      show (rest.foldl World.executeTask (w.executeTask j)).tasks.length = _
      rw [ih, executeTask_tasks_length]

lemma drain_tasks_length (w : World) :
    w.drain.tasks.length = w.tasks.length :=
  foldl_executeTask_length _ w

lemma drain_executed (w : World) (i : Nat) (h : i < w.tasks.length) :
    w.drain.executedAt i = some true :=
  foldl_executeTask_executes _ w i (List.mem_range.mpr h) h

lemma cancelledAt_cancelOne_self (w : World) (i : Nat)
    (h : i < w.tasks.length) :
    (w.cancelOne i).cancelledAt i = some true := by
  have hsome : w.tasks[i]? = some w.tasks[i] := List.getElem?_eq_getElem h
  unfold World.cancelOne
  rw [hsome]
  dsimp only
  rw [cancelledAt_eq]
  dsimp only
  rw [set_getElem?_self _ _ _ h]
  rfl

lemma cancelledAt_mono_cancelOne (w : World) (i j : Nat)
    (h : w.cancelledAt i = some true) :
    (w.cancelOne j).cancelledAt i = some true := by
  by_cases hij : i = j
  · subst hij
    have hlt : i < w.tasks.length := by
      by_contra hge
      push_neg at hge
      rw [cancelledAt_eq, List.getElem?_eq_none (by simpa using hge)] at h
      simp at h
    exact cancelledAt_cancelOne_self w i hlt
  · unfold World.cancelOne
    cases hsome : w.tasks[j]? with
    | none => exact h
    | some t =>
        dsimp only
        rw [cancelledAt_eq]
        dsimp only
        rw [set_getElem?_ne _ _ _ _ (fun hc => hij hc.symm)]
        rw [cancelledAt_eq] at h
        exact h

lemma cancelOne_tasks_length (w : World) (tid : Nat) :
    (w.cancelOne tid).tasks.length = w.tasks.length := by
  have h := cancelOne_callback_map w tid
  have := congrArg List.length h
  simpa using this

lemma cancelledAt_mono_cancelTasks (tids : List Nat) : ∀ (w : World) (i : Nat),
    w.cancelledAt i = some true →
    (w.cancelTasks tids).cancelledAt i = some true := by
  induction tids with
  | nil => intro w i h; exact h
  | cons j rest ih =>
      intro w i h
      exact ih (w.cancelOne j) i (cancelledAt_mono_cancelOne w i j h)

lemma cancelTasks_cancels (tids : List Nat) : ∀ (w : World) (i : Nat),
    i ∈ tids → i < w.tasks.length →
    (w.cancelTasks tids).cancelledAt i = some true := by
  induction tids with
  | nil => intro w i h; simp at h
  | cons j rest ih =>
      intro w i hmem hlt
      rcases List.mem_cons.mp hmem with hij | hrest
      · subst hij
        exact cancelledAt_mono_cancelTasks rest (w.cancelOne i) i
          (cancelledAt_cancelOne_self w i hlt)
      · exact ih (w.cancelOne j) i hrest
          (by rw [cancelOne_tasks_length]; exact hlt)

lemma cancelledAt_executeTask (w : World) (i j : Nat) :
    (w.executeTask j).cancelledAt i = w.cancelledAt i := by
  unfold World.cancelledAt
  rw [executeTask_cancelled_map]

lemma cancelledAt_drain (w : World) (i : Nat) :
    w.drain.cancelledAt i = w.cancelledAt i := by
  unfold World.drain
  generalize List.range w.tasks.length = l
  induction l generalizing w with
  | nil => rfl
  | cons j rest ih =>
      show (rest.foldl World.executeTask (w.executeTask j)).cancelledAt i = _
      rw [ih, cancelledAt_executeTask]

lemma executeTask_eq_of_executed (w : World) (tid : Nat)
    (h : ∀ hlt : tid < w.tasks.length, w.executedAt tid = some true) :
    w.executeTask tid = w := by
  unfold World.executeTask
  cases hsome : w.tasks[tid]? with
  | none => rfl
  | some t =>
      dsimp only
      have hlt : tid < w.tasks.length := by
        by_contra hge
        push_neg at hge
        rw [List.getElem?_eq_none (by simpa using hge)] at hsome
        cases hsome
      have he : t.executed = true := by
        have := h hlt
        rw [executedAt_eq, hsome] at this
        simpa using this
      rw [if_pos he]

lemma drain_allExecuted (w : World) : w.drain.allExecuted := by
  intro i hlt
  rw [drain_tasks_length] at hlt
  exact drain_executed w i hlt

lemma cancelTasks_allExecuted (w : World) (tids : List Nat)
    (h : w.allExecuted) : (w.cancelTasks tids).allExecuted := by
  intro i hlt
  rw [cancelTasks_tasks_length] at hlt
  unfold World.executedAt
  rw [cancelTasks_executed_map]
  exact h i hlt

lemma run_delivered_of_allExecuted (as : List OrchAction) : ∀ (w : World),
    w.allExecuted → (w.run as).delivered = w.delivered := by
  induction as with
  | nil => intro w _; rfl
  | cons a rest ih =>
      intro w h
      show (rest.foldl World.step (w.step a)).delivered = _
      cases a with
      | execute tid =>
          have hstep : w.step (OrchAction.execute tid) = w :=
            executeTask_eq_of_executed w tid (fun hlt => h tid hlt)
          rw [hstep]
          exact ih w h
      | cancel tok =>
          have h2 : (w.step (OrchAction.cancel tok)).allExecuted :=
            cancelTasks_allExecuted w tok.cancels h
          rw [show (rest.foldl World.step (w.step (OrchAction.cancel tok))) =
                (w.step (OrchAction.cancel tok)).run rest from rfl]
          rw [ih _ h2]
          exact cancelTasks_delivered tok.cancels w

/-! Claim theorems.  Concrete scenarios start from `World.empty` (a freshly
constructed client); in a `CacheWithUpdate` issue the cache-path task has
id 0 and the network-path task id 1. -/

/-- Claim C1 counterexample: for `GetPartitions` with `CacheWithUpdate`,
cancelling the `CancellationToken` returned to the caller cancels the
cache-path task (id 0) but NOT the network-path task (id 1) — the source
returns only the cache-path repository token (line 203) and never wires
the online token into it.  This refutes the claim for `GetPartitions`
(and likewise `GetData`, `GetCatalogMetadataVersion`). -/
theorem C1_counterexample :
    (let issued := CatalogClientImpl.GetPartitions World.empty
        (PartitionsRequest.mk FetchOptions.CacheWithUpdate)
     let w := issued.2.run [OrchAction.cancel issued.1]
     w.cancelledAt 0 = some true ∧ w.cancelledAt 1 = some false) := by
  decide

/-- Claim C1 (amended): only `GetCatalog` returns a combined token whose
`Cancel()` cancels both the cache-path and the network-path task; for
`GetCatalogMetadataVersion`, `GetPartitions` and `GetData` the returned
token is the cache-path token alone, so cancelling it cancels the
cache-path task and leaves the network-path task uncancelled. -/
theorem C1_amended_cancellation_scope :
    (∀ w : World,
      (CatalogClientImpl.GetCatalog w
        (CatalogRequest.mk FetchOptions.CacheWithUpdate)).1.cancels =
        [w.tasks.length, w.tasks.length + 1] ∧
      (CatalogClientImpl.GetCatalogMetadataVersion w
        (CatalogVersionRequest.mk FetchOptions.CacheWithUpdate)).1.cancels =
        [w.tasks.length] ∧
      (CatalogClientImpl.GetPartitions w
        (PartitionsRequest.mk FetchOptions.CacheWithUpdate)).1.cancels =
        [w.tasks.length] ∧
      (CatalogClientImpl.GetData w
        (DataRequest.mk FetchOptions.CacheWithUpdate)).1.cancels =
        [w.tasks.length]) ∧
    (let g := CatalogClientImpl.GetCatalog World.empty
        (CatalogRequest.mk FetchOptions.CacheWithUpdate)
     let wg := g.2.run [OrchAction.cancel g.1]
     wg.cancelledAt 0 = some true ∧ wg.cancelledAt 1 = some true) ∧
    (let p := CatalogClientImpl.GetPartitions World.empty
        (PartitionsRequest.mk FetchOptions.CacheWithUpdate)
     let wp := p.2.run [OrchAction.cancel p.1]
     wp.cancelledAt 0 = some true ∧ wp.cancelledAt 1 = some false) ∧
    (let d := CatalogClientImpl.GetData World.empty
        (DataRequest.mk FetchOptions.CacheWithUpdate)
     let wd := d.2.run [OrchAction.cancel d.1]
     wd.cancelledAt 0 = some true ∧ wd.cancelledAt 1 = some false) ∧
    (let v := CatalogClientImpl.GetCatalogMetadataVersion World.empty
        (CatalogVersionRequest.mk FetchOptions.CacheWithUpdate)
     let wv := v.2.run [OrchAction.cancel v.1]
     wv.cancelledAt 0 = some true ∧ wv.cancelledAt 1 = some false) := by
  refine ⟨fun w => ⟨?_, rfl, rfl, rfl⟩, by decide, by decide, by decide, by decide⟩
  simp [CatalogClientImpl.GetCatalog, CatalogClientImpl.add_task,
    World.GenerateRequestPlaceholder, World.Insert,
    CatalogRequest.GetFetchOption, CatalogRequest.WithFetchOption]

/-- Claim C3 counterexample: the background task of `GetCatalog` with
`CacheWithUpdate` is issued with `OnlineOnly` (source line 110), not with
`OnlineIfNotFound` as the claim states for every public fetch
operation. -/
theorem C3_counterexample :
    ¬ (((CatalogClientImpl.GetCatalog World.empty
          (CatalogRequest.mk FetchOptions.CacheWithUpdate)).2.tasks[1]?).map
            TaskCtx.option = some (some FetchOptions.OnlineIfNotFound)) ∧
    ((CatalogClientImpl.GetCatalog World.empty
        (CatalogRequest.mk FetchOptions.CacheWithUpdate)).2.tasks[1]?).map
          TaskCtx.option = some (some FetchOptions.OnlineOnly) := by
  decide

/-- Claim C5: for every public fetch operation called with `CacheOnly`,
`OnlineOnly` or `OnlineIfNotFound`, exactly one task is created for the
resource-specific repository call with that same option (the single
element appended to the scheduler-visible task list), it is registered
under the freshly generated placeholder key `w.nextKey`, and the
cancellation token returned to the caller is exactly that task's
token. -/
theorem C5_single_fetch_single_task (w : World) (opt : FetchOptions)
    (h : opt ≠ FetchOptions.CacheWithUpdate) :
    CatalogClientImpl.GetCatalog w (CatalogRequest.mk opt) =
      (CancellationToken.mk [w.tasks.length],
       { nextKey := w.nextKey + 1,
         tasks := w.tasks ++
           [TaskCtx.mk (some opt) w.nextKey (WrapCallback.direct true)
             false false],
         registry := (w.nextKey, CancellationToken.mk [w.tasks.length]) ::
           w.registry,
         delivered := w.delivered }) ∧
    CatalogClientImpl.GetCatalogMetadataVersion w
        (CatalogVersionRequest.mk opt) =
      (CancellationToken.mk [w.tasks.length],
       { nextKey := w.nextKey + 1,
         tasks := w.tasks ++
           [TaskCtx.mk (some opt) w.nextKey WrapCallback.guarded false
             false],
         registry := (w.nextKey, CancellationToken.mk [w.tasks.length]) ::
           w.registry,
         delivered := w.delivered }) ∧
    CatalogClientImpl.GetPartitions w (PartitionsRequest.mk opt) =
      (CancellationToken.mk [w.tasks.length],
       { nextKey := w.nextKey + 1,
         tasks := w.tasks ++
           [TaskCtx.mk (some opt) w.nextKey WrapCallback.guarded false
             false],
         registry := (w.nextKey, CancellationToken.mk [w.tasks.length]) ::
           w.registry,
         delivered := w.delivered }) ∧
    CatalogClientImpl.GetData w (DataRequest.mk opt) =
      (CancellationToken.mk [w.tasks.length],
       { nextKey := w.nextKey + 1,
         tasks := w.tasks ++
           [TaskCtx.mk (some opt) w.nextKey WrapCallback.guarded false
             false],
         registry := (w.nextKey, CancellationToken.mk [w.tasks.length]) ::
           w.registry,
         delivered := w.delivered }) := by
  cases opt with
  | CacheWithUpdate => exact absurd rfl h
  | CacheOnly => exact ⟨rfl, rfl, rfl, rfl⟩
  | OnlineOnly => exact ⟨rfl, rfl, rfl, rfl⟩
  | OnlineIfNotFound => exact ⟨rfl, rfl, rfl, rfl⟩

/-- Witness for C5 at a fresh client with `CacheOnly` (the
`GetPartitions` conjunct, evaluated). -/
theorem C5_single_fetch_single_task_witness :
    CatalogClientImpl.GetPartitions World.empty
        (PartitionsRequest.mk FetchOptions.CacheOnly) =
      (CancellationToken.mk [0],
       { nextKey := 1,
         tasks := [TaskCtx.mk (some FetchOptions.CacheOnly) 0
           WrapCallback.guarded false false],
         registry := [(0, CancellationToken.mk [0])],
         delivered := [] }) :=
  (C5_single_fetch_single_task World.empty FetchOptions.CacheOnly
    (by decide)).2.2.1

/-- Claim C9: every callback-style public operation inserts an entry for
the issued request into the pending-requests registry, under the
placeholder key generated for it, before returning its token to the
caller (the insert is sequenced in the operation body itself), so every
in-flight request is reachable from the registry. -/
theorem C9_registered_before_return (w : World) :
    (∀ r : CatalogRequest, ∃ tok,
      (w.nextKey, tok) ∈ (CatalogClientImpl.GetCatalog w r).2.registry) ∧
    (∀ r : CatalogVersionRequest, ∃ tok,
      (w.nextKey, tok) ∈
        (CatalogClientImpl.GetCatalogMetadataVersion w r).2.registry) ∧
    (∀ r : PartitionsRequest, ∃ tok,
      (w.nextKey, tok) ∈ (CatalogClientImpl.GetPartitions w r).2.registry) ∧
    (∀ r : DataRequest, ∃ tok,
      (w.nextKey, tok) ∈ (CatalogClientImpl.GetData w r).2.registry) ∧
    (∀ r : PrefetchTilesRequest, ∃ tok,
      (w.nextKey, tok) ∈ (CatalogClientImpl.PrefetchTiles w r).2.registry) := by
  refine ⟨fun r => ?_, fun r => ?_, fun r => ?_, fun r => ?_, fun r => ?_⟩
  · cases r with
    | mk o =>
        cases o <;>
          exact ⟨CancellationToken.mk [w.tasks.length], by
            simp [CatalogClientImpl.GetCatalog, CatalogClientImpl.add_task,
              World.GenerateRequestPlaceholder, World.Insert,
              CatalogRequest.GetFetchOption, CatalogRequest.WithFetchOption]⟩
  · cases r with
    | mk o =>
        cases o <;>
          exact ⟨CancellationToken.mk [w.tasks.length], by
            simp [CatalogClientImpl.GetCatalogMetadataVersion, repositoryCall,
              World.GenerateRequestPlaceholder, World.Insert,
              CatalogVersionRequest.GetFetchOption,
              CatalogVersionRequest.WithFetchOption]⟩
  · cases r with
    | mk o =>
        cases o <;>
          exact ⟨CancellationToken.mk [w.tasks.length], by
            simp [CatalogClientImpl.GetPartitions, repositoryCall,
              World.GenerateRequestPlaceholder, World.Insert,
              PartitionsRequest.GetFetchOption,
              PartitionsRequest.WithFetchOption]⟩
  · cases r with
    | mk o =>
        cases o <;>
          exact ⟨CancellationToken.mk [w.tasks.length], by
            simp [CatalogClientImpl.GetData, repositoryCall,
              World.GenerateRequestPlaceholder, World.Insert,
              DataRequest.GetFetchOption, DataRequest.WithFetchOption]⟩
  · exact ⟨CancellationToken.mk [w.tasks.length], by
      simp [CatalogClientImpl.PrefetchTiles,
        PrefetchTilesProvider.PrefetchTiles,
        World.GenerateRequestPlaceholder, World.Insert]⟩

lemma getElem?_append_len {α : Type} :
    ∀ (l : List α) (a : α) (rest : List α),
      (l ++ a :: rest)[l.length]? = some a
  | [], a, rest => by simp
  | x :: xs, a, rest => by
      simp only [List.cons_append, List.length_cons,
        List.getElem?_cons_succ]
      exact getElem?_append_len xs a rest

lemma append_two_getElem? {α : Type} (l : List α) (a b : α) :
    (l ++ [a] ++ [b])[l.length + 1]? = some b := by
  have h : l.length + 1 = (l ++ [a]).length := by simp
  rw [h]
  exact getElem?_append_len (l ++ [a]) b []

lemma delivered_source_zero (w1 : World) (h0 : w1.delivered = [])
    (hlen : w1.tasks.length = 2) (h1 : w1.canDeliverAt 1 = false) :
    ∀ as : List OrchAction, ∀ p ∈ (w1.run as).delivered, p.1 = 0 := by
  intro as p hp
  refine run_delivered_sources (fun tid => tid = 0) as w1 ?_ ?_ p hp
  · intro q hq
    rw [h0] at hq
    exact absurd hq (List.not_mem_nil q)
  · intro tid htid
    have hlt := canDeliverAt_lt _ _ htid
    rw [hlen] at hlt
    have h01 : tid = 0 ∨ tid = 1 := by omega
    rcases h01 with h | h
    · exact h
    · rw [h, h1] at htid
      cases htid

/-- Claim C4: for every public fetch operation issued with
`CacheWithUpdate` on a fresh client, across every interleaving of
executions and cancellations, only the cache-path task (id 0, the one
issued with `CacheOnly`) ever delivers to the caller's callback; the
network-path outcome never reaches it; and executing the cache-path task
delivers exactly its own outcome. -/
theorem C4_cache_path_outcome :
    (let g := (CatalogClientImpl.GetCatalog World.empty
        (CatalogRequest.mk FetchOptions.CacheWithUpdate)).2
     (∀ as : List OrchAction, ∀ p ∈ (g.run as).delivered, p.1 = 0) ∧
     (g.run [OrchAction.execute 0]).delivered = [(0, TaskResult.payload)] ∧
     (g.tasks[0]?).map TaskCtx.option = some (some FetchOptions.CacheOnly)) ∧
    (let g := (CatalogClientImpl.GetCatalogMetadataVersion World.empty
        (CatalogVersionRequest.mk FetchOptions.CacheWithUpdate)).2
     (∀ as : List OrchAction, ∀ p ∈ (g.run as).delivered, p.1 = 0) ∧
     (g.run [OrchAction.execute 0]).delivered = [(0, TaskResult.payload)] ∧
     (g.tasks[0]?).map TaskCtx.option = some (some FetchOptions.CacheOnly)) ∧
    (let g := (CatalogClientImpl.GetPartitions World.empty
        (PartitionsRequest.mk FetchOptions.CacheWithUpdate)).2
     (∀ as : List OrchAction, ∀ p ∈ (g.run as).delivered, p.1 = 0) ∧
     (g.run [OrchAction.execute 0]).delivered = [(0, TaskResult.payload)] ∧
     (g.tasks[0]?).map TaskCtx.option = some (some FetchOptions.CacheOnly)) ∧
    (let g := (CatalogClientImpl.GetData World.empty
        (DataRequest.mk FetchOptions.CacheWithUpdate)).2
     (∀ as : List OrchAction, ∀ p ∈ (g.run as).delivered, p.1 = 0) ∧
     (g.run [OrchAction.execute 0]).delivered = [(0, TaskResult.payload)] ∧
     (g.tasks[0]?).map TaskCtx.option = some (some FetchOptions.CacheOnly)) :=
  ⟨⟨delivered_source_zero _ (by decide) (by decide) (by decide),
      by decide, by decide⟩,
   ⟨delivered_source_zero _ (by decide) (by decide) (by decide),
      by decide, by decide⟩,
   ⟨delivered_source_zero _ (by decide) (by decide) (by decide),
      by decide, by decide⟩,
   ⟨delivered_source_zero _ (by decide) (by decide) (by decide),
      by decide, by decide⟩⟩

/-- Witness for C4: in the concrete interleaving that executes the
cache-path task, its delivery is in the list, and the theorem assigns it
source id 0. -/
theorem C4_cache_path_outcome_witness :
    (0, TaskResult.payload) ∈
      (((CatalogClientImpl.GetCatalog World.empty
          (CatalogRequest.mk FetchOptions.CacheWithUpdate)).2.run
            [OrchAction.execute 0]).delivered) ∧
    ((0 : Nat), TaskResult.payload).1 = 0 :=
  ⟨by decide,
   C4_cache_path_outcome.1.1 [OrchAction.execute 0]
     (0, TaskResult.payload) (by decide)⟩

/-- Claim C3 (amended): for `GetCatalogMetadataVersion`, `GetPartitions`
and `GetData` with `CacheWithUpdate`, the second (background) task is
issued with `OnlineIfNotFound` and registered under a second generated
placeholder key (`w.nextKey + 1`) with a discard-only callback; for
`GetCatalog` the second task is issued with `OnlineOnly` (not
`OnlineIfNotFound`), with a null callback, also registered under the
second generated placeholder key.  In every interleaving on a fresh
client the background task (id 1) never delivers to the caller. -/
theorem C3_amended_background_task :
    (∀ w : World,
      ((CatalogClientImpl.GetCatalogMetadataVersion w
          (CatalogVersionRequest.mk FetchOptions.CacheWithUpdate)).2.tasks[
            w.tasks.length + 1]? =
        some (TaskCtx.mk (some FetchOptions.OnlineIfNotFound)
          (w.nextKey + 1) WrapCallback.removeOnly false false)) ∧
      (∃ tok, (w.nextKey + 1, tok) ∈
        (CatalogClientImpl.GetCatalogMetadataVersion w
          (CatalogVersionRequest.mk FetchOptions.CacheWithUpdate)).2.registry) ∧
      ((CatalogClientImpl.GetPartitions w
          (PartitionsRequest.mk FetchOptions.CacheWithUpdate)).2.tasks[
            w.tasks.length + 1]? =
        some (TaskCtx.mk (some FetchOptions.OnlineIfNotFound)
          (w.nextKey + 1) WrapCallback.removeOnly false false)) ∧
      (∃ tok, (w.nextKey + 1, tok) ∈
        (CatalogClientImpl.GetPartitions w
          (PartitionsRequest.mk FetchOptions.CacheWithUpdate)).2.registry) ∧
      ((CatalogClientImpl.GetData w
          (DataRequest.mk FetchOptions.CacheWithUpdate)).2.tasks[
            w.tasks.length + 1]? =
        some (TaskCtx.mk (some FetchOptions.OnlineIfNotFound)
          (w.nextKey + 1) WrapCallback.removeOnly false false)) ∧
      (∃ tok, (w.nextKey + 1, tok) ∈
        (CatalogClientImpl.GetData w
          (DataRequest.mk FetchOptions.CacheWithUpdate)).2.registry) ∧
      ((CatalogClientImpl.GetCatalog w
          (CatalogRequest.mk FetchOptions.CacheWithUpdate)).2.tasks[
            w.tasks.length + 1]? =
        some (TaskCtx.mk (some FetchOptions.OnlineOnly)
          (w.nextKey + 1) (WrapCallback.direct false) false false)) ∧
      (∃ tok, (w.nextKey + 1, tok) ∈
        (CatalogClientImpl.GetCatalog w
          (CatalogRequest.mk FetchOptions.CacheWithUpdate)).2.registry)) ∧
    (∀ as : List OrchAction, ∀ p ∈
      ((CatalogClientImpl.GetCatalogMetadataVersion World.empty
        (CatalogVersionRequest.mk FetchOptions.CacheWithUpdate)).2.run
          as).delivered, p.1 ≠ 1) ∧
    (∀ as : List OrchAction, ∀ p ∈
      ((CatalogClientImpl.GetPartitions World.empty
        (PartitionsRequest.mk FetchOptions.CacheWithUpdate)).2.run
          as).delivered, p.1 ≠ 1) ∧
    (∀ as : List OrchAction, ∀ p ∈
      ((CatalogClientImpl.GetData World.empty
        (DataRequest.mk FetchOptions.CacheWithUpdate)).2.run
          as).delivered, p.1 ≠ 1) ∧
    (∀ as : List OrchAction, ∀ p ∈
      ((CatalogClientImpl.GetCatalog World.empty
        (CatalogRequest.mk FetchOptions.CacheWithUpdate)).2.run
          as).delivered, p.1 ≠ 1) := by
  refine ⟨fun w => ?_,
    fun as p hp => by
      rw [delivered_source_zero _ (by decide) (by decide) (by decide) as p hp]
      decide,
    fun as p hp => by
      rw [delivered_source_zero _ (by decide) (by decide) (by decide) as p hp]
      decide,
    fun as p hp => by
      rw [delivered_source_zero _ (by decide) (by decide) (by decide) as p hp]
      decide,
    fun as p hp => by
      rw [delivered_source_zero _ (by decide) (by decide) (by decide) as p hp]
      decide⟩
  refine ⟨?_, ⟨CancellationToken.mk [w.tasks.length + 1], ?_⟩,
    ?_, ⟨CancellationToken.mk [w.tasks.length + 1], ?_⟩,
    ?_, ⟨CancellationToken.mk [w.tasks.length + 1], ?_⟩,
    ?_, ⟨CancellationToken.mk [w.tasks.length + 1], ?_⟩⟩
  · simp only [CatalogClientImpl.GetCatalogMetadataVersion, repositoryCall,
      World.GenerateRequestPlaceholder, World.Insert,
      CatalogVersionRequest.GetFetchOption,
      CatalogVersionRequest.WithFetchOption, if_pos]
    exact append_two_getElem? _ _ _
  · simp [CatalogClientImpl.GetCatalogMetadataVersion, repositoryCall,
      World.GenerateRequestPlaceholder, World.Insert,
      CatalogVersionRequest.GetFetchOption,
      CatalogVersionRequest.WithFetchOption]
  · simp only [CatalogClientImpl.GetPartitions, repositoryCall,
      World.GenerateRequestPlaceholder, World.Insert,
      PartitionsRequest.GetFetchOption,
      PartitionsRequest.WithFetchOption, if_pos]
    exact append_two_getElem? _ _ _
  · simp [CatalogClientImpl.GetPartitions, repositoryCall,
      World.GenerateRequestPlaceholder, World.Insert,
      PartitionsRequest.GetFetchOption, PartitionsRequest.WithFetchOption]
  · simp only [CatalogClientImpl.GetData, repositoryCall,
      World.GenerateRequestPlaceholder, World.Insert,
      DataRequest.GetFetchOption, DataRequest.WithFetchOption, if_pos]
    exact append_two_getElem? _ _ _
  · simp [CatalogClientImpl.GetData, repositoryCall,
      World.GenerateRequestPlaceholder, World.Insert,
      DataRequest.GetFetchOption, DataRequest.WithFetchOption]
  · simp only [CatalogClientImpl.GetCatalog, CatalogClientImpl.add_task,
      World.GenerateRequestPlaceholder, World.Insert,
      CatalogRequest.GetFetchOption, CatalogRequest.WithFetchOption,
      if_pos]
    exact append_two_getElem? _ _ _
  · simp [CatalogClientImpl.GetCatalog, CatalogClientImpl.add_task,
      World.GenerateRequestPlaceholder, World.Insert,
      CatalogRequest.GetFetchOption, CatalogRequest.WithFetchOption]

/-- Witness for C3 (amended): the cache-path delivery exists and its
source id is not the background task's id 1. -/
theorem C3_amended_background_task_witness :
    (0, TaskResult.payload) ∈
      ((CatalogClientImpl.GetCatalogMetadataVersion World.empty
        (CatalogVersionRequest.mk FetchOptions.CacheWithUpdate)).2.run
          [OrchAction.execute 0]).delivered ∧
    ((0 : Nat), TaskResult.payload).1 ≠ 1 :=
  ⟨by decide,
   C3_amended_background_task.2.1 [OrchAction.execute 0]
     (0, TaskResult.payload) (by decide)⟩

/-- Claim C2 counterexample: the wrapping callback of `PrefetchTiles`
(source lines 256-259) calls `Remove(request_key)` but forwards the
response unconditionally, ignoring `Remove`'s return value.  In a state
where the registry no longer holds the key — `Remove` returns false —
executing the prefetch task still delivers the result to the caller's
callback, refuting the claim that the result is forwarded only if
`Remove` returns true. -/
theorem C2_counterexample :
    (let issued := CatalogClientImpl.PrefetchTiles World.empty
        (PrefetchTilesRequest.mk [])
     let w := { issued.2 with registry := [] }
     (w.Remove 0).1 = false ∧
     (w.executeTask 0).delivered = [(0, TaskResult.payload)]) := by
  decide

/-- Claim C2 (amended): the `Remove`-guard holds for the operations that
build a `request_callback` with the guard — `GetCatalogMetadataVersion`,
`GetPartitions`, `GetData`: any unexecuted task with a guarded callback
delivers nothing when `Remove(key)` reports the key absent, and delivers
exactly its result when the key is present.  `PrefetchTiles` instead
removes and forwards unconditionally, and `GetCatalog` delivers inside
the task execution and removes the registry entry afterwards, without
consulting `Remove`'s return value. -/
theorem C2_amended_remove_guard :
    (∀ (w : World) (tid : Nat) (t : TaskCtx),
      w.tasks[tid]? = some t → t.callback = WrapCallback.guarded →
      t.executed = false →
      ((w.Remove t.key).1 = false →
        (w.executeTask tid).delivered = w.delivered) ∧
      ((w.Remove t.key).1 = true →
        (w.executeTask tid).delivered =
          w.delivered ++ [(tid, t.result)])) ∧
    (∀ opt : FetchOptions,
      ((CatalogClientImpl.GetCatalogMetadataVersion World.empty
          (CatalogVersionRequest.mk opt)).2.tasks[0]?).map
            TaskCtx.callback = some WrapCallback.guarded ∧
      ((CatalogClientImpl.GetPartitions World.empty
          (PartitionsRequest.mk opt)).2.tasks[0]?).map
            TaskCtx.callback = some WrapCallback.guarded ∧
      ((CatalogClientImpl.GetData World.empty
          (DataRequest.mk opt)).2.tasks[0]?).map
            TaskCtx.callback = some WrapCallback.guarded) ∧
    ((CatalogClientImpl.PrefetchTiles World.empty
        (PrefetchTilesRequest.mk [])).2.tasks[0]?).map
          TaskCtx.callback = some WrapCallback.unguarded ∧
    ((CatalogClientImpl.GetCatalog World.empty
        (CatalogRequest.mk FetchOptions.CacheOnly)).2.tasks[0]?).map
          TaskCtx.callback = some (WrapCallback.direct true) := by
  refine ⟨?_, fun opt => by cases opt <;> exact ⟨by decide, by decide, by decide⟩,
    by decide, by decide⟩
  intro w tid t hsome hg he
  unfold World.executeTask
  rw [hsome]
  dsimp only
  rw [if_neg (by rw [he]; exact Bool.false_ne_true)]
  unfold World.runCallback
  rw [hg]
  dsimp only
  constructor
  · intro hfalse
    simp only [World.Remove] at hfalse ⊢
    rw [hfalse]
    simp only [Bool.false_eq_true, if_false]
  · intro htrue
    simp only [World.Remove] at htrue ⊢
    rw [htrue]
    simp only [if_true]

/-- Witness for C2 (amended): the guard lemma applied to the cache-path
task of a fresh `GetPartitions(CacheOnly)` issue, where the key is
present, so the result is delivered. -/
theorem C2_amended_remove_guard_witness :
    ((CatalogClientImpl.GetPartitions World.empty
      (PartitionsRequest.mk FetchOptions.CacheOnly)).2.executeTask
        0).delivered = [(0, TaskResult.payload)] := by
  have h := (C2_amended_remove_guard.1
    (CatalogClientImpl.GetPartitions World.empty
      (PartitionsRequest.mk FetchOptions.CacheOnly)).2
    0
    (TaskCtx.mk (some FetchOptions.CacheOnly) 0 WrapCallback.guarded
      false false)
    (by decide) (by decide) (by decide)).2 (by decide)
  rw [h]
  decide

/-- Claim C10: the background online task built by `GetCatalog` with
`CacheWithUpdate` carries a null result callback
(`WrapCallback.direct false` models the `nullptr` passed at source line
110), and executing a task whose callback is null never invokes it —
its completion changes no delivered result — and cancelling a task never
delivers anything either. -/
theorem C10_null_callback_no_delivery :
    (∀ w : World,
      ((CatalogClientImpl.GetCatalog w
          (CatalogRequest.mk FetchOptions.CacheWithUpdate)).2.tasks[
            w.tasks.length + 1]?).map TaskCtx.callback =
        some (WrapCallback.direct false)) ∧
    (∀ (w : World) (tid : Nat) (t : TaskCtx),
      w.tasks[tid]? = some t → t.callback = WrapCallback.direct false →
      (w.executeTask tid).delivered = w.delivered) ∧
    (∀ (w : World) (tids : List Nat),
      (w.cancelTasks tids).delivered = w.delivered) := by
  refine ⟨fun w => ?_, fun w tid t hsome hcb => ?_,
    fun w tids => cancelTasks_delivered tids w⟩
  · simp only [CatalogClientImpl.GetCatalog, CatalogClientImpl.add_task,
      World.GenerateRequestPlaceholder, World.Insert,
      CatalogRequest.GetFetchOption, CatalogRequest.WithFetchOption,
      if_pos]
    rw [append_two_getElem?]
    rfl
  · unfold World.executeTask
    rw [hsome]
    dsimp only
    by_cases he : t.executed
    · rw [if_pos he]
    · rw [if_neg he]
      unfold World.runCallback
      rw [hcb]
      dsimp only
      simp only [Bool.false_eq_true, if_false, World.Remove]

/-- Witness for C10: executing the null-callback online task of a fresh
`GetCatalog(CacheWithUpdate)` issue delivers nothing. -/
theorem C10_null_callback_no_delivery_witness :
    ((CatalogClientImpl.GetCatalog World.empty
      (CatalogRequest.mk FetchOptions.CacheWithUpdate)).2.executeTask
        1).delivered = [] := by
  have h := C10_null_callback_no_delivery.2.1
    (CatalogClientImpl.GetCatalog World.empty
      (CatalogRequest.mk FetchOptions.CacheWithUpdate)).2
    1
    (TaskCtx.mk (some FetchOptions.OnlineOnly) 1
      (WrapCallback.direct false) false false)
    (by decide) (by decide)
  rw [h]
  decide

/-- Claim C6 helper: once a `TaskContext` has left the `CREATED` state,
further `Execute()`/`Cancel()` calls change neither the callback count
nor bring it back to `CREATED`. -/
lemma runTC_noncreated (as : List TCAction) : ∀ tc : TaskContext,
    tc.state ≠ TCState.created →
    (tc.runTC as).callbackCount = tc.callbackCount ∧
    (tc.runTC as).state ≠ TCState.created := by
  induction as with
  | nil => intro tc h; exact ⟨rfl, h⟩
  | cons a rest ih =>
      intro tc h
      have hrun : tc.runTC (a :: rest) = (tc.tcStep a).runTC rest := rfl
      cases a with
      | cancel =>
          rw [hrun]
          exact ih (tc.tcStep TCAction.cancel) h
      | execute =>
          have hstep : tc.tcStep TCAction.execute = tc := by
            unfold TaskContext.tcStep
            cases hs : tc.state with
            | created => exact absurd hs h
            | completed => rfl
            | cancelledState => rfl
          rw [hrun, hstep]
          exact ih tc h

/-- Claim C6 helper: from a fresh `CREATED` context with callback count 0,
running any call sequence leaves the count at 1 exactly when the sequence
contains an `Execute()`. -/
lemma runTC_created (as : List TCAction) : ∀ tc : TaskContext,
    tc.state = TCState.created → tc.callbackCount = 0 →
    (TCAction.execute ∈ as → (tc.runTC as).callbackCount = 1) ∧
    (TCAction.execute ∉ as → (tc.runTC as).callbackCount = 0) := by
  induction as with
  | nil =>
      intro tc _ hc
      exact ⟨fun hmem => absurd hmem (List.not_mem_nil _), fun _ => hc⟩
  | cons a rest ih =>
      intro tc hs hc
      cases a with
      | cancel =>
          have h := ih { tc with ctxCancelled := true } hs hc
          constructor
          · intro hmem
            have : TCAction.execute ∈ rest := by
              rcases List.mem_cons.mp hmem with hx | hx
              · cases hx
              · exact hx
            exact h.1 this
          · intro hmem
            exact h.2 (fun hr => hmem (List.mem_cons_of_mem _ hr))
      | execute =>
          have hstep : (tc.tcStep TCAction.execute).callbackCount = 1 ∧
              (tc.tcStep TCAction.execute).state ≠ TCState.created := by
            unfold TaskContext.tcStep
            rw [hs]
            dsimp only
            constructor
            · rw [hc]
            · by_cases hcc : tc.ctxCancelled = true
              · rw [if_pos hcc]; intro hcon; cases hcon
              · rw [if_neg hcc]; intro hcon; cases hcon
          have h := runTC_noncreated rest (tc.tcStep TCAction.execute) hstep.2
          constructor
          · intro _
            show (TaskContext.runTC (tc.tcStep TCAction.execute) rest).callbackCount = 1
            rw [h.1, hstep.1]
          · intro hmem
            exact absurd (List.mem_cons_self _ _) hmem

/-- Claim C6: for every `TaskContext` and every ordering of `Execute()`
and `Cancel()` calls that includes the (eventual) `Execute()` — cancel
before execute, during, after, repeated, or no cancel at all — the
result callback is invoked exactly once in total. -/
theorem C6_callback_exactly_once (as : List TCAction)
    (h : TCAction.execute ∈ as) :
    (TaskContext.Create.runTC as).callbackCount = 1 :=
  (runTC_created as TaskContext.Create rfl rfl).1 h

/-- Witness for C6: cancel before execute, then a redundant execute and
cancel — the callback still fires exactly once. -/
theorem C6_callback_exactly_once_witness :
    TCAction.execute ∈ [TCAction.cancel, TCAction.execute,
      TCAction.execute, TCAction.cancel] ∧
    (TaskContext.Create.runTC [TCAction.cancel, TCAction.execute,
      TCAction.execute, TCAction.cancel]).callbackCount = 1 :=
  ⟨by decide,
   C6_callback_exactly_once
     [TCAction.cancel, TCAction.execute, TCAction.execute, TCAction.cancel]
     (by decide)⟩

/-- Claim C7: destroying the client calls `CancelPendingRequests`, whose
registry-side teardown cancels every registered request, waits until
every outstanding task has executed (its callback fired, possibly with a
cancellation result), and afterwards no interleaving of further events
can deliver anything to a caller callback. -/
theorem C7_teardown_no_late_callbacks (w : World) :
    (∀ (k : Nat) (tok : CancellationToken), (k, tok) ∈ w.registry →
      ∀ tid ∈ tok.cancels, tid < w.tasks.length →
      (CatalogClientImpl.CancelPendingRequests w).cancelledAt tid =
        some true) ∧
    (∀ i, i < w.tasks.length →
      (CatalogClientImpl.CancelPendingRequests w).executedAt i =
        some true) ∧
    (∀ as : List OrchAction,
      ((CatalogClientImpl.CancelPendingRequests w).run as).delivered =
        (CatalogClientImpl.CancelPendingRequests w).delivered) := by
  unfold CatalogClientImpl.CancelPendingRequests World.CancelAllAndWait
  refine ⟨fun k tok hmem tid htid hlt => ?_, fun i hlt => ?_,
    fun as => run_delivered_of_allExecuted as _ (drain_allExecuted _)⟩
  · rw [cancelledAt_drain]
    refine cancelTasks_cancels _ w tid ?_ hlt
    exact List.mem_flatten.mpr
      ⟨tok.cancels, List.mem_map.mpr ⟨(k, tok), hmem, rfl⟩, htid⟩
  · exact drain_executed _ i
      (by rw [cancelTasks_tasks_length]; exact hlt)

/-- Witness for C7: tearing down a client with one pending
`GetPartitions(CacheOnly)` request cancels its task, executes it, and no
later event delivers anything further. -/
theorem C7_teardown_no_late_callbacks_witness :
    (CatalogClientImpl.CancelPendingRequests
      (CatalogClientImpl.GetPartitions World.empty
        (PartitionsRequest.mk FetchOptions.CacheOnly)).2).cancelledAt 0 =
      some true ∧
    ((CatalogClientImpl.CancelPendingRequests
      (CatalogClientImpl.GetPartitions World.empty
        (PartitionsRequest.mk FetchOptions.CacheOnly)).2).run
          [OrchAction.execute 0]).delivered =
      (CatalogClientImpl.CancelPendingRequests
        (CatalogClientImpl.GetPartitions World.empty
          (PartitionsRequest.mk FetchOptions.CacheOnly)).2).delivered :=
  ⟨(C7_teardown_no_late_callbacks _).1 0 (CancellationToken.mk [0])
      (by decide) 0 (by decide) (by decide),
   (C7_teardown_no_late_callbacks _).2.2 [OrchAction.execute 0]⟩

/-- Claim C8: for every resource type, the future-style overload is the
callback-style overload adapted through a promise (`AsFuture`), so for
every request both forms resolve to the same single result: the value
the promise is fulfilled with is exactly the first (and only) result the
callback form delivers. -/
theorem C8_future_form_matches_callback_form :
    (∀ r : CatalogRequest,
      (AsFuture CatalogClientImpl.GetCatalog r).value =
        (callbackResults CatalogClientImpl.GetCatalog r).head? ∧
      callbackResults CatalogClientImpl.GetCatalog r =
        [TaskResult.payload]) ∧
    (∀ r : CatalogVersionRequest,
      (AsFuture CatalogClientImpl.GetCatalogMetadataVersion r).value =
        (callbackResults CatalogClientImpl.GetCatalogMetadataVersion
          r).head? ∧
      callbackResults CatalogClientImpl.GetCatalogMetadataVersion r =
        [TaskResult.payload]) ∧
    (∀ r : PartitionsRequest,
      (AsFuture CatalogClientImpl.GetPartitions r).value =
        (callbackResults CatalogClientImpl.GetPartitions r).head? ∧
      callbackResults CatalogClientImpl.GetPartitions r =
        [TaskResult.payload]) ∧
    (∀ r : DataRequest,
      (AsFuture CatalogClientImpl.GetData r).value =
        (callbackResults CatalogClientImpl.GetData r).head? ∧
      callbackResults CatalogClientImpl.GetData r =
        [TaskResult.payload]) ∧
    (∀ r : PrefetchTilesRequest,
      (AsFuture CatalogClientImpl.PrefetchTiles r).value =
        (callbackResults CatalogClientImpl.PrefetchTiles r).head? ∧
      callbackResults CatalogClientImpl.PrefetchTiles r =
        [TaskResult.payload]) := by
  refine ⟨fun r => ?_, fun r => ?_, fun r => ?_, fun r => ?_,
    fun r => ⟨rfl, rfl⟩⟩
  · cases r with
    | mk o => cases o <;> exact ⟨by decide, by decide⟩
  · cases r with
    | mk o => cases o <;> exact ⟨by decide, by decide⟩
  · cases r with
    | mk o => cases o <;> exact ⟨by decide, by decide⟩
  · cases r with
    | mk o => cases o <;> exact ⟨by decide, by decide⟩
